import Mathlib

/-!
Shallow embedding of the `chess-interactor` crate (King+Queen vs King endgame
referee). Squares are zero-based coordinates; the Rust `u8` coordinates are
always in `0..=7` for positions produced by parsing, so we use `Nat` and carry
on-board bounds as hypotheses where the source relies on them. Fallible Rust
functions returning `Result` are embedded as `Except`; the `&mut self` method
`try_apply_move` is embedded as a function returning the `Result` paired with
the post-state. Byte-string slicing (`&line[a..b]`), which panics in Rust when
an index is not a UTF-8 char boundary, is embedded as an `Option`, `none`
standing for the panic.
-/

deriving instance DecidableEq for Except

namespace ChessInteractor

/-- Mirrors `ChessBoardPosition { row: u8, column: u8 }`. -/
structure ChessBoardPosition where
  row : Nat
  column : Nat
deriving DecidableEq, Repr

/-- Mirrors `ChessBoardPosition::queen_distance`: distance and unit direction
when the two squares share a rank, file or diagonal, an error otherwise. -/
def ChessBoardPosition.queen_distance (self rhs : ChessBoardPosition) :
    Except String (Nat × (Int × Int)) :=
  let row_diff : Int := (rhs.row : Int) - (self.row : Int)
  let column_diff : Int := (rhs.column : Int) - (self.column : Int)
  if row_diff = 0 ∧ column_diff = 0 then
    Except.ok (0, (0, 0))
  else if row_diff = 0 ∨ column_diff = 0 then
    let distance : Nat := row_diff.natAbs + column_diff.natAbs
    Except.ok (distance, (row_diff / (distance : Int), column_diff / (distance : Int)))
  else if row_diff.natAbs = column_diff.natAbs then
    let distance : Nat := (row_diff.natAbs + column_diff.natAbs) / 2
    Except.ok (distance, (row_diff / (distance : Int), column_diff / (distance : Int)))
  else
    Except.error "the position is not reachable by queen move"

/-- Mirrors the Rust enum `ChessPiece`. -/
inductive ChessPiece where
  | King
  | Queen
deriving DecidableEq, Repr

/-- Mirrors `ChessPiece::from_str`, on UTF-8 bytes (75 = 'K', 81 = 'Q'). -/
def ChessPiece.from_str (s : List Nat) : Except String ChessPiece :=
  if s = [75] then Except.ok ChessPiece.King
  else if s = [81] then Except.ok ChessPiece.Queen
  else Except.error "invalid chess piece"

/-- Mirrors `ChessBoardPosition::from_str`, on UTF-8 bytes
(97..104 = 'a'..'h', 49..56 = '1'..'8'). -/
def ChessBoardPosition.from_str (s : List Nat) : Except String ChessBoardPosition :=
  match s with
  | [b0, b1] =>
    if 97 ≤ b0 ∧ b0 ≤ 104 then
      if 49 ≤ b1 ∧ b1 ≤ 56 then
        Except.ok ⟨b1 - 49, b0 - 97⟩
      else Except.error "invalid row"
    else Except.error "invalid column"
  | _ => Except.error "invalid length"

/-- Mirrors the Rust struct `Chess` (the `u64` move counters become `Nat`). -/
structure Chess where
  white_king_position : ChessBoardPosition
  white_queen_position : ChessBoardPosition
  black_king_position : ChessBoardPosition
  moves : Nat
  moves_limit : Nat
deriving DecidableEq, Repr

/-- Mirrors the Rust enum `GameOver`; the offending input line is kept as its
UTF-8 bytes. -/
inductive GameOver where
  | WrongInput (error_message : String) (input : List Nat)
  | TooManyMoves
  | Draw
  | Stalemate
  | Checkmate
deriving DecidableEq, Repr

/-- Mirrors the local enum `ChessBoardCell` of `try_move_black_king`. -/
inductive ChessBoardCell where
  | Available
  | King
  | Attackable
deriving DecidableEq, Repr

/-- The 8×8 board of `try_move_black_king`, as a total function; the Rust code
only ever indexes it with coordinates in `0..=7`. -/
abbrev ChessBoard : Type := Nat → Nat → ChessBoardCell

/-- A single assignment `board[r][c] = v`. -/
def setCell (b : ChessBoard) (r c : Nat) (v : ChessBoardCell) : ChessBoard :=
  fun r' c' => if r' = r ∧ c' = c then v else b r' c'

/-- Mirrors one queen-ray sweep loop: visit the cells in order, stopping at a
cell already marked `King`, marking every visited cell `Attackable`. -/
def sweepCells (cells : List (Nat × Nat)) (b : ChessBoard) : ChessBoard :=
  match cells with
  | [] => b
  | (r, c) :: rest =>
    match b r c with
    | ChessBoardCell.King => b
    | _ => sweepCells rest (setCell b r c ChessBoardCell.Attackable)

/-- The inclusive range `a..=b` of the Rust `for` loops (empty when `b < a`). -/
def rangeIncl (a b : Nat) : List Nat := List.range' a (b + 1 - a)

/-- Mirrors the first phase of `try_move_black_king`: mark every square of the
white king's (clipped) 3×3 neighborhood `Attackable`, then the king's own
square `King`. -/
def markKingZone (wk : ChessBoardPosition) (b : ChessBoard) : ChessBoard :=
  let b := (rangeIncl (wk.row - 1) (min (wk.row + 1) 7)).foldl
    (fun b row => (rangeIncl (wk.column - 1) (min (wk.column + 1) 7)).foldl
      (fun b column => setCell b row column ChessBoardCell.Attackable) b) b
  setCell b wk.row wk.column ChessBoardCell.King

/-- Mirrors the attack-map construction of `try_move_black_king`: the king zone
followed by the eight queen-ray sweeps, in source order (right, left, up, down,
up-right, down-left, down-right, up-left). -/
def buildBoard (wk wq : ChessBoardPosition) : ChessBoard :=
  let b : ChessBoard := markKingZone wk (fun _ _ => ChessBoardCell.Available)
  let r := wq.row
  let c := wq.column
  let b := sweepCells ((List.range (7 - c)).map fun i => (r, c + 1 + i)) b
  let b := sweepCells ((List.range c).map fun i => (r, c - 1 - i)) b
  let b := sweepCells ((List.range (7 - r)).map fun i => (r + 1 + i, c)) b
  let b := sweepCells ((List.range r).map fun i => (r - 1 - i, c)) b
  let b := sweepCells ((List.range (min (7 - r) (7 - c))).map fun i => (r + 1 + i, c + 1 + i)) b
  let b := sweepCells ((List.range (min r c)).map fun i => (r - 1 - i, c - 1 - i)) b
  let b := sweepCells ((List.range (min r (7 - c))).map fun i => (r - 1 - i, c + 1 + i)) b
  let b := sweepCells ((List.range (min (7 - r) c)).map fun i => (r + 1 + i, c - 1 - i)) b
  b

/-- The black king's candidate destinations, in the row-major order of the two
nested `for` loops of `try_move_black_king`, the king's own square skipped. -/
def neighborCells (bk : ChessBoardPosition) : List ChessBoardPosition :=
  (rangeIncl (bk.row - 1) (min (bk.row + 1) 7)).flatMap fun row =>
    (rangeIncl (bk.column - 1) (min (bk.column + 1) 7)).filterMap fun column =>
      if row = bk.row ∧ column = bk.column then none
      else some ⟨row, column⟩

/-- Mirrors `Chess::try_move_black_king`: build the attack map, scan the
neighbors in row-major order keeping the most recent `Available` one, and
either move the black king there or report Stalemate/Checkmate. -/
def Chess.try_move_black_king (s : Chess) : Except GameOver Chess :=
  let board := buildBoard s.white_king_position s.white_queen_position
  let sel := (neighborCells s.black_king_position).foldl
    (fun best p =>
      if board p.row p.column = ChessBoardCell.Available then (p, 1) else best)
    ((s.black_king_position, 0) : ChessBoardPosition × Nat)
  if sel.2 = 0 then
    if board s.black_king_position.row s.black_king_position.column
        = ChessBoardCell.Available then
      Except.error GameOver.Stalemate
    else
      Except.error GameOver.Checkmate
  else
    Except.ok { s with black_king_position := sel.1 }

/-- Mirrors `Chess::try_apply_move` (a `&mut self` method returning
`Result<(), &str>`): the result is paired with the post-state. The
`king-moves-enabled` Cargo feature becomes the `kingMovesEnabled` argument. -/
def Chess.try_apply_move (s : Chess) (kingMovesEnabled : Bool)
    (chess_piece : ChessPiece) (chess_piece_move : ChessBoardPosition) :
    Except String Unit × Chess :=
  match chess_piece with
  | ChessPiece.King =>
    if kingMovesEnabled = false then
      (Except.error "king moves are not allowed", s)
    else if s.white_queen_position = chess_piece_move then
      (Except.error "king tried to move over the queen", s)
    else
      match s.white_king_position.queen_distance chess_piece_move with
      | Except.error _ => (Except.error "king tried to do impossible move", s)
      | Except.ok (distance, _) =>
        if distance = 0 then
          (Except.error "king was not moved", s)
        else if 1 < distance then
          (Except.error "king tried to move too far", s)
        else
          match s.black_king_position.queen_distance chess_piece_move with
          | Except.ok (1, _) =>
            (Except.error "white king tried to move next to the black king", s)
          | _ =>
            (Except.ok (), { s with white_king_position := chess_piece_move })
  | ChessPiece.Queen =>
    match s.white_queen_position.queen_distance chess_piece_move with
    | Except.error _ => (Except.error "queen tried to do impossible move", s)
    | Except.ok (distance_to_new_position, direction_to_new_position) =>
      if distance_to_new_position = 0 then
        (Except.error "queen has not been moved", s)
      else
        let afterWhiteKingCheck : Except String Unit × Chess :=
          match s.white_queen_position.queen_distance s.black_king_position with
          | Except.ok (distance_to_black_king, direction_to_black_king) =>
            if direction_to_new_position = direction_to_black_king ∧
                distance_to_black_king ≤ distance_to_new_position then
              (Except.error "queen tried to jump over black king", s)
            else
              (Except.ok (), { s with white_queen_position := chess_piece_move })
          | Except.error _ =>
            (Except.ok (), { s with white_queen_position := chess_piece_move })
        match s.white_queen_position.queen_distance s.white_king_position with
        | Except.ok (distance_to_white_king, direction_to_white_king) =>
          if direction_to_new_position = direction_to_white_king ∧
              distance_to_white_king ≤ distance_to_new_position then
            (Except.error "queen tried to jump over white king", s)
          else
            afterWhiteKingCheck
        | Except.error _ =>
          afterWhiteKingCheck

/-- Rust `str::is_char_boundary` on the UTF-8 bytes of the line: index 0 or the
length, or a byte that is not a UTF-8 continuation byte. -/
def is_char_boundary (line : List Nat) (i : Nat) : Bool :=
  if i = 0 then true
  else
    match line.get? i with
    | none => decide (i = line.length)
    | some b => decide (b < 128 ∨ 192 ≤ b)

/-- Rust byte-range slicing `&line[a..b]` on a `&str`: `none` models the panic
taken when an index is out of range or not a char boundary. -/
def strSlice (line : List Nat) (a b : Nat) : Option (List Nat) :=
  if a ≤ b ∧ b ≤ line.length ∧ is_char_boundary line a ∧ is_char_boundary line b then
    some ((line.drop a).take (b - a))
  else none

/-- The length/`'#'` classification at the top of the `Chess::play` loop body:
`some true` for a 4-byte line ending in `'#'` (35), `some false` for a 3-byte
line, `none` for everything else (WrongInput). -/
def lineCheckmateFlag (line : List Nat) : Option Bool :=
  if line.length = 4 ∧ line.getLast? = some 35 then some true
  else if line.length = 3 then some false
  else none

/-- `.map(|(distance, _)| distance).unwrap_or(0)` applied to `queen_distance`,
as used by the draw check in `Chess::play`. -/
def queenDistanceOrZero (a b : ChessBoardPosition) : Nat :=
  match a.queen_distance b with
  | Except.ok (distance, _) => distance
  | Except.error _ => 0

/-- The draw condition checked by `Chess::play` right after a move was applied
and counted: black king at queen-distance 1 from the queen while the white king
is not. -/
def Chess.drawCond (s : Chess) : Prop :=
  queenDistanceOrZero s.black_king_position s.white_queen_position = 1 ∧
    queenDistanceOrZero s.white_king_position s.white_queen_position ≠ 1

instance (s : Chess) : Decidable s.drawCond := by
  unfold Chess.drawCond
  exact instDecidableAnd

/-- Outcome of one iteration of the `Chess::play` loop: a terminal verdict, a
Rust panic (unreachable in the source's intent, but see the byte slicing), or
the next state after the black response was printed. -/
inductive StepResult where
  | over (g : GameOver)
  | panicked
  | next (s : Chess)
deriving DecidableEq, Repr

/-- The body of the `Chess::play` loop after the move-limit check, for one
already-read (and trimmed) input line given as its UTF-8 bytes. -/
def Chess.playStepBody (s : Chess) (kingMovesEnabled : Bool) (line : List Nat) :
    StepResult :=
  match lineCheckmateFlag line with
  | none =>
    StepResult.over (GameOver.WrongInput
      "line is neither of length 3 nor length 4 with \x27#\x27 at the end" line)
  | some checkmate =>
    match strSlice line 0 1 with
    | none => StepResult.panicked
    | some piece_str =>
      match ChessPiece.from_str piece_str with
      | Except.error err => StepResult.over (GameOver.WrongInput err line)
      | Except.ok chess_piece =>
        match strSlice line 1 3 with
        | none => StepResult.panicked
        | some move_str =>
          match ChessBoardPosition.from_str move_str with
          | Except.error err => StepResult.over (GameOver.WrongInput err line)
          | Except.ok chess_piece_move =>
            match s.try_apply_move kingMovesEnabled chess_piece chess_piece_move with
            | (Except.error err, _) => StepResult.over (GameOver.WrongInput err line)
            | (Except.ok _, s1) =>
              if ({ s1 with moves := s1.moves + 1 } : Chess).drawCond then
                StepResult.over GameOver.Draw
              else
                match ({ s1 with moves := s1.moves + 1 } : Chess).try_move_black_king with
                | Except.error game_over =>
                  if game_over = GameOver.Checkmate ∧ checkmate = false then
                    StepResult.over (GameOver.WrongInput "no checkmate when expected" line)
                  else
                    StepResult.over game_over
                | Except.ok s3 => StepResult.next s3

/-- One full iteration of the `Chess::play` loop: the move-limit check followed
by the loop body on the given line. -/
def Chess.playStep (s : Chess) (kingMovesEnabled : Bool) (line : List Nat) :
    StepResult :=
  if s.moves_limit ≤ s.moves then StepResult.over GameOver.TooManyMoves
  else s.playStepBody kingMovesEnabled line

/-- A whole game's outcome: a `GameOver` verdict or a panic. -/
inductive GameOutcome where
  | normal (g : GameOver)
  | panicked
deriving DecidableEq, Repr

/-- `Chess::play` over a finite list of input lines (each given trimmed, as
UTF-8 bytes), together with the number of lines consumed. Once the input is
exhausted, `read_line` yields an empty line, which fails the length check. -/
def Chess.playGame (s : Chess) (kingMovesEnabled : Bool) (lines : List (List Nat)) :
    GameOutcome × Nat :=
  if s.moves_limit ≤ s.moves then (GameOutcome.normal GameOver.TooManyMoves, 0)
  else
    match lines with
    | [] =>
      (GameOutcome.normal (GameOver.WrongInput
        "line is neither of length 3 nor length 4 with \x27#\x27 at the end" []), 0)
    | line :: rest =>
      match s.playStepBody kingMovesEnabled line with
      | StepResult.over g => (GameOutcome.normal g, 1)
      | StepResult.panicked => (GameOutcome.panicked, 1)
      | StepResult.next s3 =>
        let r := s3.playGame kingMovesEnabled rest
        (r.1, r.2 + 1)

/-- The last element of a cell list classified `Available` — the candidate the
overwriting scan of `try_move_black_king` ends up keeping. -/
def lastAvailable (board : ChessBoard) : List ChessBoardPosition → Option ChessBoardPosition
  | [] => none
  | p :: l =>
    match lastAvailable board l with
    | some q => some q
    | none =>
      if board p.row p.column = ChessBoardCell.Available then some p else none

/-- Modelled from the spec: the first `Available` neighbor in the given order,
which §4.4 of the specification designates as the black king's destination. -/
def firstAvailable (board : ChessBoard) (l : List ChessBoardPosition) :
    Option ChessBoardPosition :=
  l.find? (fun p => board p.row p.column = ChessBoardCell.Available)

/-- The state invariant of the spec: all three squares on the board and
pairwise distinct. -/
def Chess.Valid (s : Chess) : Prop :=
  s.white_king_position.row ≤ 7 ∧ s.white_king_position.column ≤ 7 ∧
    s.white_queen_position.row ≤ 7 ∧ s.white_queen_position.column ≤ 7 ∧
    s.black_king_position.row ≤ 7 ∧ s.black_king_position.column ≤ 7 ∧
    s.white_king_position ≠ s.white_queen_position ∧
    s.white_king_position ≠ s.black_king_position ∧
    s.white_queen_position ≠ s.black_king_position

instance (s : Chess) : Decidable s.Valid := by
  unfold Chess.Valid
  infer_instance

theorem select_foldl_eq (board : ChessBoard) (l : List ChessBoardPosition)
    (init : ChessBoardPosition × Nat) :
    l.foldl (fun best p =>
        if board p.row p.column = ChessBoardCell.Available then (p, 1) else best) init
      = match lastAvailable board l with
        | some q => (q, 1)
        | none => init := by
  induction l generalizing init with
  | nil => rfl
  | cons p l ih =>
    simp only [List.foldl_cons, ih, lastAvailable]
    cases h : lastAvailable board l
    · simp only [h]
      split <;> simp
    · simp only [h]

theorem lastAvailable_mem {board : ChessBoard} {l : List ChessBoardPosition}
    {p : ChessBoardPosition} (h : lastAvailable board l = some p) :
    p ∈ l ∧ board p.row p.column = ChessBoardCell.Available := by
  induction l with
  | nil => simp [lastAvailable] at h
  | cons q l ih =>
    rw [lastAvailable] at h
    cases hl : lastAvailable board l with
    | some r =>
      rw [hl] at h
      obtain ⟨hm, ha⟩ := ih (hl.trans h)
      exact ⟨List.mem_cons_of_mem _ hm, ha⟩
    | none =>
      rw [hl] at h
      by_cases hq : board q.row q.column = ChessBoardCell.Available
      · rw [if_pos hq] at h
        cases h
        exact ⟨List.mem_cons_self _ _, hq⟩
      · rw [if_neg hq] at h
        cases h

theorem lastAvailable_eq_none {board : ChessBoard} {l : List ChessBoardPosition}
    (h : ∀ p ∈ l, board p.row p.column ≠ ChessBoardCell.Available) :
    lastAvailable board l = none := by
  induction l with
  | nil => rfl
  | cons q l ih =>
    rw [lastAvailable, ih fun p hp => h p (List.mem_cons_of_mem _ hp)]
    rw [if_neg (h q (List.mem_cons_self _ _))]

theorem mem_rangeIncl {m a b : Nat} : m ∈ rangeIncl a b ↔ a ≤ m ∧ m ≤ b := by
  unfold rangeIncl
  rw [List.mem_range'_1]
  omega

theorem sweepCells_preserves_king (cells : List (Nat × Nat)) (b : ChessBoard)
    {r c : Nat} (h : b r c = ChessBoardCell.King) :
    sweepCells cells b r c = ChessBoardCell.King := by
  induction cells generalizing b with
  | nil => exact h
  | cons rc rest ih =>
    obtain ⟨r', c'⟩ := rc
    rw [sweepCells]
    cases hc : b r' c' with
    | King => exact h
    | Available =>
      refine ih _ ?_
      rw [setCell]
      split
      · rename_i heq
        rw [heq.1, heq.2] at h
        rw [h] at hc
        cases hc
      · exact h
    | Attackable =>
      refine ih _ ?_
      rw [setCell]
      split
      · rename_i heq
        rw [heq.1, heq.2] at h
        rw [h] at hc
        cases hc
      · exact h

theorem sweepCells_avail (cells : List (Nat × Nat)) (b : ChessBoard)
    {r c : Nat} (h : sweepCells cells b r c = ChessBoardCell.Available) :
    b r c = ChessBoardCell.Available := by
  induction cells generalizing b with
  | nil => exact h
  | cons rc rest ih =>
    obtain ⟨r', c'⟩ := rc
    rw [sweepCells] at h
    cases hc : b r' c' with
    | King =>
      rw [hc] at h
      exact h
    | Available =>
      rw [hc] at h
      have := ih _ h
      rw [setCell] at this
      split at this
      · cases this
      · exact this
    | Attackable =>
      rw [hc] at h
      have := ih _ h
      rw [setCell] at this
      split at this
      · cases this
      · exact this

theorem foldl_setCell_inner (row : Nat) (v : ChessBoardCell) (cl : List Nat)
    (b : ChessBoard) (r c : Nat) :
    (cl.foldl (fun b column => setCell b row column v) b) r c
      = if r = row ∧ c ∈ cl then v else b r c := by
  induction cl generalizing b with
  | nil => simp
  | cons c' cl ih =>
    rw [List.foldl_cons, ih]
    simp only [setCell, List.mem_cons]
    split_ifs <;> tauto

theorem foldl_setCell_outer (v : ChessBoardCell) (rl cl : List Nat)
    (b : ChessBoard) (r c : Nat) :
    (rl.foldl (fun b row => cl.foldl (fun b column => setCell b row column v) b) b) r c
      = if r ∈ rl ∧ c ∈ cl then v else b r c := by
  induction rl generalizing b with
  | nil => simp
  | cons r' rl ih =>
    rw [List.foldl_cons, ih, foldl_setCell_inner]
    simp only [List.mem_cons]
    split_ifs <;> tauto

theorem markKingZone_eq (wk : ChessBoardPosition) (b : ChessBoard) (r c : Nat) :
    markKingZone wk b r c
      = if r = wk.row ∧ c = wk.column then ChessBoardCell.King
        else if (wk.row - 1 ≤ r ∧ r ≤ min (wk.row + 1) 7) ∧
            (wk.column - 1 ≤ c ∧ c ≤ min (wk.column + 1) 7) then ChessBoardCell.Attackable
        else b r c := by
  unfold markKingZone
  rw [setCell, foldl_setCell_outer]
  simp only [mem_rangeIncl]

theorem try_move_black_king_eq (s : Chess) :
    s.try_move_black_king
      = match lastAvailable (buildBoard s.white_king_position s.white_queen_position)
          (neighborCells s.black_king_position) with
        | some q => Except.ok { s with black_king_position := q }
        | none =>
          if buildBoard s.white_king_position s.white_queen_position
              s.black_king_position.row s.black_king_position.column
              = ChessBoardCell.Available then
            Except.error GameOver.Stalemate
          else
            Except.error GameOver.Checkmate := by
  unfold Chess.try_move_black_king
  simp only [select_foldl_eq]
  cases h : lastAvailable (buildBoard s.white_king_position s.white_queen_position)
      (neighborCells s.black_king_position) <;> simp

theorem try_move_black_king_error {s : Chess} {g : GameOver}
    (h : s.try_move_black_king = Except.error g) :
    g = GameOver.Stalemate ∨ g = GameOver.Checkmate := by
  rw [try_move_black_king_eq] at h
  generalize lastAvailable (buildBoard s.white_king_position s.white_queen_position)
      (neighborCells s.black_king_position) = la at h
  cases la with
  | some q => simp at h
  | none =>
    split at h
    · rename_i heq
      cases heq
    · split at h
      · injection h with h'
        exact Or.inl h'.symm
      · injection h with h'
        exact Or.inr h'.symm

theorem try_move_black_king_ok {s s' : Chess}
    (h : s.try_move_black_king = Except.ok s') :
    ∃ q, lastAvailable (buildBoard s.white_king_position s.white_queen_position)
        (neighborCells s.black_king_position) = some q ∧
      s' = { s with black_king_position := q } := by
  rw [try_move_black_king_eq] at h
  cases hl : lastAvailable (buildBoard s.white_king_position s.white_queen_position)
      (neighborCells s.black_king_position) with
  | some q =>
    rw [hl] at h
    injection h with h'
    exact ⟨q, rfl, h'.symm⟩
  | none =>
    rw [hl] at h
    split at h
    · rename_i heq
      cases heq
    · split at h <;> simp at h

theorem buildBoard_king_cell (wk wq : ChessBoardPosition) :
    buildBoard wk wq wk.row wk.column = ChessBoardCell.King := by
  unfold buildBoard
  refine sweepCells_preserves_king _ _ ?_
  refine sweepCells_preserves_king _ _ ?_
  refine sweepCells_preserves_king _ _ ?_
  refine sweepCells_preserves_king _ _ ?_
  refine sweepCells_preserves_king _ _ ?_
  refine sweepCells_preserves_king _ _ ?_
  refine sweepCells_preserves_king _ _ ?_
  refine sweepCells_preserves_king _ _ ?_
  rw [markKingZone_eq]
  simp

theorem buildBoard_avail {wk wq : ChessBoardPosition} {r c : Nat}
    (h : buildBoard wk wq r c = ChessBoardCell.Available) :
    markKingZone wk (fun _ _ => ChessBoardCell.Available) r c
      = ChessBoardCell.Available := by
  unfold buildBoard at h
  exact sweepCells_avail _ _ (sweepCells_avail _ _ (sweepCells_avail _ _
    (sweepCells_avail _ _ (sweepCells_avail _ _ (sweepCells_avail _ _
      (sweepCells_avail _ _ (sweepCells_avail _ _ h)))))))

/-- A square of the white king's clipped 3×3 zone is never classified
`Available` by the attack map. -/
theorem buildBoard_zone_not_avail {wk wq : ChessBoardPosition} {r c : Nat}
    (hr : wk.row - 1 ≤ r ∧ r ≤ min (wk.row + 1) 7)
    (hc : wk.column - 1 ≤ c ∧ c ≤ min (wk.column + 1) 7) :
    buildBoard wk wq r c ≠ ChessBoardCell.Available := by
  intro h
  have := buildBoard_avail h
  rw [markKingZone_eq] at this
  split at this
  · cases this
  · rw [if_pos ⟨hr, hc⟩] at this
    cases this

theorem mem_neighborCells {bk p : ChessBoardPosition} :
    p ∈ neighborCells bk ↔
      (bk.row - 1 ≤ p.row ∧ p.row ≤ min (bk.row + 1) 7 ∧
        bk.column - 1 ≤ p.column ∧ p.column ≤ min (bk.column + 1) 7 ∧ p ≠ bk) := by
  unfold neighborCells
  rw [List.mem_flatMap]
  constructor
  · rintro ⟨row, hrow, hp⟩
    rw [List.mem_filterMap] at hp
    obtain ⟨column, hcolumn, hif⟩ := hp
    rw [mem_rangeIncl] at hrow hcolumn
    split at hif
    · cases hif
    · rename_i hne
      cases hif
      refine ⟨hrow.1, hrow.2, hcolumn.1, hcolumn.2, ?_⟩
      intro he
      apply hne
      subst he
      exact ⟨rfl, rfl⟩
  · rintro ⟨h1, h2, h3, h4, h5⟩
    refine ⟨p.row, mem_rangeIncl.mpr ⟨h1, h2⟩, ?_⟩
    rw [List.mem_filterMap]
    refine ⟨p.column, mem_rangeIncl.mpr ⟨h3, h4⟩, ?_⟩
    split
    · rename_i heq
      exfalso
      apply h5
      cases p
      cases bk
      simp only [ChessBoardPosition.mk.injEq]
      exact heq
    · rfl

theorem pos_eq_iff (a b : ChessBoardPosition) :
    a = b ↔ (a.row = b.row ∧ a.column = b.column) := by
  cases a
  cases b
  simp [ChessBoardPosition.mk.injEq]

/-- Closed arithmetic form of `queenDistanceOrZero`. -/
theorem queenDistanceOrZero_eq (a b : ChessBoardPosition) :
    queenDistanceOrZero a b
      = if (b.row : Int) - (a.row : Int) = 0 ∧ (b.column : Int) - (a.column : Int) = 0 then 0
        else if (b.row : Int) - (a.row : Int) = 0 ∨ (b.column : Int) - (a.column : Int) = 0 then
          ((b.row : Int) - (a.row : Int)).natAbs + ((b.column : Int) - (a.column : Int)).natAbs
        else if ((b.row : Int) - (a.row : Int)).natAbs
            = ((b.column : Int) - (a.column : Int)).natAbs then
          (((b.row : Int) - (a.row : Int)).natAbs
            + ((b.column : Int) - (a.column : Int)).natAbs) / 2
        else 0 := by
  simp only [queenDistanceOrZero, ChessBoardPosition.queen_distance]
  split_ifs <;> rfl

/-- The draw check's distance reads exactly 1 precisely when the two squares
are distinct and within one row and one column of each other (king-adjacent,
Chebyshev distance 1). -/
theorem queenDistanceOrZero_eq_one_iff (a b : ChessBoardPosition) :
    queenDistanceOrZero a b = 1 ↔
      (a ≠ b ∧ a.row ≤ b.row + 1 ∧ b.row ≤ a.row + 1 ∧
        a.column ≤ b.column + 1 ∧ b.column ≤ a.column + 1) := by
  rw [queenDistanceOrZero_eq, ne_eq, pos_eq_iff]
  split_ifs <;> first
  | omega
  | (simp only [false_iff]; omega)

/-- A successfully parsed square is on the 8×8 board. -/
theorem from_str_ok_bounds {bs : List Nat} {t : ChessBoardPosition}
    (h : ChessBoardPosition.from_str bs = Except.ok t) :
    t.row ≤ 7 ∧ t.column ≤ 7 := by
  unfold ChessBoardPosition.from_str at h
  split at h
  · split_ifs at h with h0 h1
    injection h with h'
    subst h'
    refine ⟨?_, ?_⟩
    · show _ - 49 ≤ 7
      omega
    · show _ - 97 ≤ 7
      omega
  · exact Except.noConfusion h

/-- With king moves disabled (the default build), a king move is rejected
unconditionally, leaving the state untouched. -/
theorem try_apply_move_king_disabled (s : Chess) (t : ChessBoardPosition) :
    s.try_apply_move false ChessPiece.King t
      = (Except.error "king moves are not allowed", s) := rfl

/-- Every branch of `try_apply_move` either returns the untouched state or
reports success. -/
theorem try_apply_move_cases (s : Chess) (ke : Bool) (p : ChessPiece)
    (t : ChessBoardPosition) :
    (s.try_apply_move ke p t).2 = s ∨ (s.try_apply_move ke p t).1 = Except.ok () := by
  unfold Chess.try_apply_move
  cases p <;> (repeat' split) <;> simp

/-- `try_apply_move` never touches the move counter or the limit. -/
theorem try_apply_move_counters (s : Chess) (ke : Bool) (p : ChessPiece)
    (t : ChessBoardPosition) :
    (s.try_apply_move ke p t).2.moves = s.moves ∧
      (s.try_apply_move ke p t).2.moves_limit = s.moves_limit := by
  unfold Chess.try_apply_move
  cases p <;> (repeat' split) <;> simp

/-- A successful queen move updates only the queen square, and its target
collides with neither king: the path checks fire on a target equal to the
white or the black king's square. -/
theorem try_apply_move_queen_ok {s : Chess} {ke : Bool} {t : ChessBoardPosition}
    {s1 : Chess}
    (h : s.try_apply_move ke ChessPiece.Queen t = (Except.ok (), s1)) :
    s1 = { s with white_queen_position := t } ∧
      t ≠ s.white_king_position ∧ t ≠ s.black_king_position := by
  unfold Chess.try_apply_move at h
  split at h
  · rename_i heq
    exact ChessPiece.noConfusion heq
  · split at h
    · simp at h
    · rename_i dn dir hq
      split_ifs at h with h0
      · simp at h
      · split at h
        · rename_i db dirb hbk
          split_ifs at h with hcondb
          · split at h
            · split_ifs at h <;> simp at h
            · simp at h
          · split at h
            · rename_i dk dirk hwk
              split_ifs at h with hcondk
              · simp at h
              · injection h with h1 h2
                refine ⟨h2.symm, ?_, ?_⟩
                · intro he
                  rw [he] at hq
                  rw [hwk] at hq
                  injection hq with hq'
                  injection hq' with hqd hqdir
                  exact hcondk ⟨hqdir.symm, le_of_eq hqd⟩
                · intro he
                  rw [he] at hq
                  rw [hbk] at hq
                  injection hq with hq'
                  injection hq' with hqd hqdir
                  exact hcondb ⟨hqdir.symm, le_of_eq hqd⟩
            · rename_i hwk
              injection h with h1 h2
              refine ⟨h2.symm, ?_, ?_⟩
              · intro he
                rw [he] at hq
                rw [hwk] at hq
                exact Except.noConfusion hq
              · intro he
                rw [he] at hq
                rw [hbk] at hq
                injection hq with hq'
                injection hq' with hqd hqdir
                exact hcondb ⟨hqdir.symm, le_of_eq hqd⟩
        · rename_i hbk
          split at h
          · rename_i dk dirk hwk
            split_ifs at h with hcondk
            · simp at h
            · injection h with h1 h2
              refine ⟨h2.symm, ?_, ?_⟩
              · intro he
                rw [he] at hq
                rw [hwk] at hq
                injection hq with hq'
                injection hq' with hqd hqdir
                exact hcondk ⟨hqdir.symm, le_of_eq hqd⟩
              · intro he
                rw [he] at hq
                rw [hbk] at hq
                exact Except.noConfusion hq
          · rename_i hwk
            injection h with h1 h2
            refine ⟨h2.symm, ?_, ?_⟩
            · intro he
              rw [he] at hq
              rw [hwk] at hq
              exact Except.noConfusion hq
            · intro he
              rw [he] at hq
              rw [hbk] at hq
              exact Except.noConfusion hq

/-- The black response step, taken as the game loop takes it (only when the
draw check did not fire), keeps the state valid. -/
theorem black_response_valid {s s' : Chess} (hv : s.Valid) (hnd : ¬ s.drawCond)
    (h : s.try_move_black_king = Except.ok s') : s'.Valid := by
  obtain ⟨q, hq, rfl⟩ := try_move_black_king_ok h
  obtain ⟨hmem, havail⟩ := lastAvailable_mem hq
  rw [mem_neighborCells] at hmem
  obtain ⟨hm1, hm2, hm3, hm4, hm5⟩ := hmem
  obtain ⟨hwr, hwc, hqr, hqc, hbr, hbc, hne1, hne2, hne3⟩ := hv
  have hq7r : q.row ≤ 7 := le_trans hm2 (min_le_right _ _)
  have hq7c : q.column ≤ 7 := le_trans hm4 (min_le_right _ _)
  have hqwk : q ≠ s.white_king_position := by
    intro he
    rw [he] at havail
    rw [buildBoard_king_cell] at havail
    exact ChessBoardCell.noConfusion havail
  have hqwq : q ≠ s.white_queen_position := by
    intro he
    rw [Chess.drawCond, not_and_or] at hnd
    cases hnd with
    | inl hA =>
      apply hA
      rw [queenDistanceOrZero_eq_one_iff]
      rw [he] at hm1 hm2 hm3 hm4
      refine ⟨Ne.symm hne3, ?_, ?_, ?_, ?_⟩ <;> omega
    | inr hB =>
      rw [not_not] at hB
      rw [queenDistanceOrZero_eq_one_iff] at hB
      obtain ⟨hBne, hB1, hB2, hB3, hB4⟩ := hB
      have hzone := @buildBoard_zone_not_avail s.white_king_position
        s.white_queen_position s.white_queen_position.row
        s.white_queen_position.column (by omega) (by omega)
      rw [he] at havail
      exact hzone havail
  exact ⟨hwr, hwc, hqr, hqc, hq7r, hq7c, hne1, Ne.symm hqwk, Ne.symm hqwq⟩

/-- Structure of a loop-body iteration that continues: the move was accepted,
the target was a parsed (hence on-board) square, the draw check did not fire,
and the black response succeeded. -/
theorem playStepBody_next {s : Chess} {ke : Bool} {line : List Nat} {s' : Chess}
    (h : s.playStepBody ke line = StepResult.next s') :
    ∃ piece target s1, s.try_apply_move ke piece target = (Except.ok (), s1) ∧
      target.row ≤ 7 ∧ target.column ≤ 7 ∧
      ¬ Chess.drawCond { s1 with moves := s1.moves + 1 } ∧
      ({ s1 with moves := s1.moves + 1 }).try_move_black_king = Except.ok s' := by
  unfold Chess.playStepBody at h
  split at h
  · simp at h
  · split at h
    · simp at h
    · split at h
      · simp at h
      · split at h
        · simp at h
        · split at h
          · simp at h
          · rename_i target htarget
            split at h
            · simp at h
            · rename_i u s1 happ
              split_ifs at h with hdraw
              split at h
              · split at h <;> simp at h
              · rename_i s3 hblack
                injection h with h'
                subst h'
                exact ⟨_, target, s1, happ, (from_str_ok_bounds htarget).1,
                  (from_str_ok_bounds htarget).2, hdraw, hblack⟩

/-- A continuing loop-body iteration advances the move counter by exactly one
and keeps the limit. -/
theorem playStepBody_next_counters {s : Chess} {ke : Bool} {line : List Nat}
    {s' : Chess} (h : s.playStepBody ke line = StepResult.next s') :
    s'.moves = s.moves + 1 ∧ s'.moves_limit = s.moves_limit := by
  obtain ⟨p, t, s1, happ, _, _, _, hblack⟩ := playStepBody_next h
  obtain ⟨q, _, rfl⟩ := try_move_black_king_ok hblack
  have hc := try_apply_move_counters s ke p t
  rw [happ] at hc
  exact ⟨congrArg (· + 1) hc.1, hc.2⟩

/-- With king moves disabled, a full continuing iteration of the play loop
keeps the state valid. -/
theorem playStep_next_valid {s s' : Chess} {line : List Nat} (hv : s.Valid)
    (h : s.playStep false line = StepResult.next s') : s'.Valid := by
  unfold Chess.playStep at h
  split_ifs at h with hl
  obtain ⟨p, t, s1, happ, htr, htc, hdraw, hblack⟩ := playStepBody_next h
  cases p with
  | King =>
    rw [try_apply_move_king_disabled] at happ
    simp at happ
  | Queen =>
    obtain ⟨rfl, hneq1, hneq2⟩ := try_apply_move_queen_ok happ
    obtain ⟨hwr, hwc, hqr, hqc, hbr, hbc, hne1, hne2, hne3⟩ := hv
    refine black_response_valid ?_ hdraw hblack
    exact ⟨hwr, hwc, htr, htc, hbr, hbc, Ne.symm hneq1, hne2, hneq2⟩

/-- Evaluation of the loop body once the line parsed and the move was
accepted: what remains is the draw check, the black response and the
checkmate-claim check. -/
theorem playStepBody_eval {s : Chess} {ke : Bool} {line : List Nat} {cm : Bool}
    {ps ms : List Nat} {piece : ChessPiece} {target : ChessBoardPosition} {s1 : Chess}
    (hflag : lineCheckmateFlag line = some cm)
    (hps : strSlice line 0 1 = some ps)
    (hp : ChessPiece.from_str ps = Except.ok piece)
    (hms : strSlice line 1 3 = some ms)
    (hm : ChessBoardPosition.from_str ms = Except.ok target)
    (happ : s.try_apply_move ke piece target = (Except.ok (), s1)) :
    s.playStepBody ke line
      = if ({ s1 with moves := s1.moves + 1 } : Chess).drawCond then
          StepResult.over GameOver.Draw
        else
          match ({ s1 with moves := s1.moves + 1 } : Chess).try_move_black_king with
          | Except.error game_over =>
            if game_over = GameOver.Checkmate ∧ cm = false then
              StepResult.over (GameOver.WrongInput "no checkmate when expected" line)
            else StepResult.over game_over
          | Except.ok s3 => StepResult.next s3 := by
  unfold Chess.playStepBody
  simp only [hflag, hps, hp, hms, hm, happ]

/-- A successful king move requires the feature toggle, updates only the king
square, and its target was not at queen-distance exactly 1 from the black
king. -/
theorem try_apply_move_king_ok {s : Chess} {ke : Bool} {t : ChessBoardPosition}
    {s1 : Chess}
    (h : s.try_apply_move ke ChessPiece.King t = (Except.ok (), s1)) :
    s1 = { s with white_king_position := t } ∧ ke = true ∧
      ∀ d, s.black_king_position.queen_distance t ≠ Except.ok (1, d) := by
  unfold Chess.try_apply_move at h
  split at h
  · split_ifs at h with hke hq
    · simp at h
    · simp at h
    · split at h
      · simp at h
      · rename_i dist dird hwt
        split_ifs at h with hd0 hd1
        · simp at h
        · simp at h
        · split at h
          · simp at h
          · rename_i hno
            injection h with h1 h2
            refine ⟨h2.symm, ?_, ?_⟩
            · cases ke
              · exact absurd rfl hke
              · rfl
            · intro d hd
              exact hno d hd
  · rename_i heq
    exact ChessPiece.noConfusion heq

/-- A queen move whose target lies on the same ray from the queen as the white
king, at or beyond the white king, is never accepted. -/
theorem try_apply_move_queen_wk_block {s : Chess} {ke : Bool}
    {t : ChessBoardPosition} {dn dk : Nat} {dir : Int × Int}
    (hq : s.white_queen_position.queen_distance t = Except.ok (dn, dir))
    (hwk : s.white_queen_position.queen_distance s.white_king_position
      = Except.ok (dk, dir))
    (hle : dk ≤ dn) (s1 : Chess) :
    s.try_apply_move ke ChessPiece.Queen t ≠ (Except.ok (), s1) := by
  intro h
  unfold Chess.try_apply_move at h
  split at h
  · rename_i heq
    exact ChessPiece.noConfusion heq
  · split at h
    · rename_i e heq
      rw [heq] at hq
      exact Except.noConfusion hq
    · rename_i dn0 dir0 heq
      rw [hq] at heq
      injection heq with heq'
      injection heq' with hdn hdir
      subst hdn
      subst hdir
      split_ifs at h with h0
      · simp at h
      · split at h
        · rename_i db dirb hbk
          split_ifs at h with hcondb
          · split at h
            · split_ifs at h <;> simp at h
            · simp at h
          · split at h
            · rename_i dk0 dirk0 hwk0
              rw [hwk] at hwk0
              injection hwk0 with hwk0'
              injection hwk0' with hdk hdirk
              subst hdk
              subst hdirk
              split_ifs at h with hck
              · simp at h
              · exact hck ⟨rfl, hle⟩
            · rename_i hwk0
              rw [hwk] at hwk0
              exact Except.noConfusion hwk0
        · rename_i hbk
          split at h
          · rename_i dk0 dirk0 hwk0
            rw [hwk] at hwk0
            injection hwk0 with hwk0'
            injection hwk0' with hdk hdirk
            subst hdk
            subst hdirk
            split_ifs at h with hck
            · simp at h
            · exact hck ⟨rfl, hle⟩
          · rename_i hwk0
            rw [hwk] at hwk0
            exact Except.noConfusion hwk0

/-- C1 (counterexample): the black response selector does not move to the
first Available neighbor in row-major order. With white king a1, white queen
b1, black king g7, the first Available neighbor is f6 (row 5, column 5), but
the selector moves the king to h8 (row 7, column 7). -/
theorem c1_first_fit_counterexample :
    firstAvailable (buildBoard ⟨0, 0⟩ ⟨0, 1⟩) (neighborCells ⟨6, 6⟩) = some ⟨5, 5⟩ ∧
      Chess.try_move_black_king ⟨⟨0, 0⟩, ⟨0, 1⟩, ⟨6, 6⟩, 0, 50⟩
        = Except.ok ⟨⟨0, 0⟩, ⟨0, 1⟩, ⟨7, 7⟩, 0, 50⟩ ∧
      (⟨7, 7⟩ : ChessBoardPosition) ≠ ⟨5, 5⟩ := by decide

/-- C1 (amended): for every attack map and black-king square with at least one
Available neighbor, the black response moves the king to the LAST Available
neighbor in increasing-row, then increasing-column order — the scan overwrites
its candidate without breaking out of the loop. -/
theorem c1_black_response_moves_to_last_available (s : Chess)
    (p : ChessBoardPosition) (_hv : s.Valid)
    (h : lastAvailable (buildBoard s.white_king_position s.white_queen_position)
      (neighborCells s.black_king_position) = some p) :
    s.try_move_black_king = Except.ok { s with black_king_position := p } := by
  rw [try_move_black_king_eq, h]

/-- C1 (witness): the amended theorem applied to the counterexample board. -/
theorem c1_black_response_moves_to_last_available_witness :
    Chess.Valid ⟨⟨0, 0⟩, ⟨0, 1⟩, ⟨6, 6⟩, 0, 50⟩ ∧
      Chess.try_move_black_king ⟨⟨0, 0⟩, ⟨0, 1⟩, ⟨6, 6⟩, 0, 50⟩
        = Except.ok ⟨⟨0, 0⟩, ⟨0, 1⟩, ⟨7, 7⟩, 0, 50⟩ :=
  ⟨by decide,
    c1_black_response_moves_to_last_available ⟨⟨0, 0⟩, ⟨0, 1⟩, ⟨6, 6⟩, 0, 50⟩
      ⟨7, 7⟩ (by decide) (by decide)⟩

/-- C2 (counterexample): a trailing-'#' line whose accepted move does not give
checkmate does not end the game with WrongInput: with initial squares a1/e1/e8
and input "Qe5#" the game simply continues with the black response. -/
theorem c2_hash_claim_counterexample :
    lineCheckmateFlag [81, 101, 53, 35] = some true ∧
      Chess.playStep ⟨⟨0, 0⟩, ⟨0, 4⟩, ⟨7, 4⟩, 0, 50⟩ false [81, 101, 53, 35]
        = StepResult.next ⟨⟨0, 0⟩, ⟨4, 4⟩, ⟨7, 5⟩, 1, 50⟩ := by decide

/-- C2 (amended): after an accepted move on a line carrying the trailing '#',
the game never ends with WrongInput: the '#' claim is not validated; only a
missing '#' at an actual checkmate produces WrongInput, and otherwise the
verdict is the computed one (continue, Draw, Stalemate, or Checkmate). -/
theorem c2_hash_claim_not_validated (s : Chess) (ke : Bool) (line ps ms : List Nat)
    (piece : ChessPiece) (target : ChessBoardPosition) (s1 : Chess)
    (hflag : lineCheckmateFlag line = some true)
    (hps : strSlice line 0 1 = some ps)
    (hp : ChessPiece.from_str ps = Except.ok piece)
    (hms : strSlice line 1 3 = some ms)
    (hm : ChessBoardPosition.from_str ms = Except.ok target)
    (happ : s.try_apply_move ke piece target = (Except.ok (), s1)) :
    ∀ msg inp, s.playStep ke line ≠ StepResult.over (GameOver.WrongInput msg inp) := by
  intro msg inp hcontra
  unfold Chess.playStep at hcontra
  split_ifs at hcontra with hl
  · exact GameOver.noConfusion (StepResult.over.inj hcontra)
  · rw [playStepBody_eval hflag hps hp hms hm happ] at hcontra
    split_ifs at hcontra with hd
    · exact GameOver.noConfusion (StepResult.over.inj hcontra)
    · split at hcontra
      · rename_i g hg
        split_ifs at hcontra with hcm
        · exact hcm.2
        · cases try_move_black_king_error hg with
          | inl h' =>
            rw [h'] at hcontra
            exact GameOver.noConfusion (StepResult.over.inj hcontra)
          | inr h' =>
            rw [h'] at hcontra
            exact GameOver.noConfusion (StepResult.over.inj hcontra)
      · exact StepResult.noConfusion hcontra

/-- C2 (witness): the amended theorem applied to the counterexample game. -/
theorem c2_hash_claim_not_validated_witness :
    Chess.playStep ⟨⟨0, 0⟩, ⟨0, 4⟩, ⟨7, 4⟩, 0, 50⟩ false [81, 101, 53, 35]
      ≠ StepResult.over
        (GameOver.WrongInput "no checkmate when expected" [81, 101, 53, 35]) :=
  c2_hash_claim_not_validated ⟨⟨0, 0⟩, ⟨0, 4⟩, ⟨7, 4⟩, 0, 50⟩ false
    [81, 101, 53, 35] [81] [101, 53] ChessPiece.Queen ⟨4, 4⟩
    ⟨⟨0, 0⟩, ⟨4, 4⟩, ⟨7, 4⟩, 0, 50⟩ (by decide) (by decide) (by decide) (by decide)
    (by decide) (by decide) "no checkmate when expected" [81, 101, 53, 35]

/-- C3: immediately after an accepted white move, if the black king is at
queen-distance exactly 1 from the white queen while the white king is not, the
iteration ends with the Draw verdict — whatever the black response would have
been. -/
theorem c3_unprotected_adjacent_queen_draw (s : Chess) (ke : Bool)
    (line ps ms : List Nat) (cm : Bool) (piece : ChessPiece)
    (target : ChessBoardPosition) (s1 : Chess)
    (hlimit : s.moves < s.moves_limit)
    (hflag : lineCheckmateFlag line = some cm)
    (hps : strSlice line 0 1 = some ps)
    (hp : ChessPiece.from_str ps = Except.ok piece)
    (hms : strSlice line 1 3 = some ms)
    (hm : ChessBoardPosition.from_str ms = Except.ok target)
    (happ : s.try_apply_move ke piece target = (Except.ok (), s1))
    (hdraw : ({ s1 with moves := s1.moves + 1 } : Chess).drawCond) :
    s.playStep ke line = StepResult.over GameOver.Draw := by
  unfold Chess.playStep
  rw [if_neg (by omega), playStepBody_eval hflag hps hp hms hm happ, if_pos hdraw]

/-- C3 (witness): from a1/e1/e8 the move "Qe7" puts the queen adjacent to the
black king without white-king protection and the game ends Draw at once. -/
theorem c3_unprotected_adjacent_queen_draw_witness :
    Chess.playStep ⟨⟨0, 0⟩, ⟨0, 4⟩, ⟨7, 4⟩, 0, 50⟩ false [81, 101, 55]
      = StepResult.over GameOver.Draw :=
  c3_unprotected_adjacent_queen_draw ⟨⟨0, 0⟩, ⟨0, 4⟩, ⟨7, 4⟩, 0, 50⟩ false
    [81, 101, 55] [81] [101, 55] false ChessPiece.Queen ⟨6, 4⟩
    ⟨⟨0, 0⟩, ⟨6, 4⟩, ⟨7, 4⟩, 0, 50⟩ (by decide) (by decide) (by decide) (by decide)
    (by decide) (by decide) (by decide) (by decide)

/-- C4: when no neighboring square of the black king is classified Available,
the black response is Stalemate when the king's own square is Available and
Checkmate otherwise. -/
theorem c4_no_escape_stalemate_or_checkmate (s : Chess) (_hv : s.Valid)
    (h : ∀ p ∈ neighborCells s.black_king_position,
      buildBoard s.white_king_position s.white_queen_position p.row p.column
        ≠ ChessBoardCell.Available) :
    s.try_move_black_king
      = if buildBoard s.white_king_position s.white_queen_position
            s.black_king_position.row s.black_king_position.column
            = ChessBoardCell.Available then
          Except.error GameOver.Stalemate
        else
          Except.error GameOver.Checkmate := by
  rw [try_move_black_king_eq, lastAvailable_eq_none h]

/-- C4 (witness): the classic corner mate (white king g6, queen g7, black king
h8) has no Available neighbor and the attacked own square, giving Checkmate. -/
theorem c4_no_escape_stalemate_or_checkmate_witness :
    Chess.try_move_black_king ⟨⟨5, 6⟩, ⟨6, 6⟩, ⟨7, 7⟩, 0, 50⟩
      = if buildBoard ⟨5, 6⟩ ⟨6, 6⟩ 7 7 = ChessBoardCell.Available then
          Except.error GameOver.Stalemate
        else Except.error GameOver.Checkmate :=
  c4_no_escape_stalemate_or_checkmate ⟨⟨5, 6⟩, ⟨6, 6⟩, ⟨7, 7⟩, 0, 50⟩
    (by decide) (by decide)

/-- C5: the piece/square parsing step can panic. The line "Ф1#" (UTF-8 bytes
208 164 49 35) passes the length check (4 bytes ending in '#'), but slicing
the first byte hits a non-char-boundary, which in the Rust source panics
instead of producing WrongInput. -/
theorem c5_multibyte_line_panics :
    lineCheckmateFlag [208, 164, 49, 35] = some true ∧
      strSlice [208, 164, 49, 35] 0 1 = none ∧
      Chess.playStepBody ⟨⟨0, 0⟩, ⟨0, 4⟩, ⟨7, 4⟩, 0, 50⟩ false [208, 164, 49, 35]
        = StepResult.panicked := by decide

/-- C6 (counterexample): with king moves enabled, a white king move ONTO the
black king's square (queen-distance 0, hence within queen-distance 1) is not
rejected: from white king a1, queen h8, black king b1, the move Kb1 is
accepted. -/
theorem c6_distance_zero_not_rejected :
    ChessBoardPosition.queen_distance ⟨0, 1⟩ ⟨0, 1⟩ = Except.ok (0, (0, 0)) ∧
      Chess.try_apply_move ⟨⟨0, 0⟩, ⟨7, 7⟩, ⟨0, 1⟩, 0, 50⟩ true ChessPiece.King ⟨0, 1⟩
        = (Except.ok (), ⟨⟨0, 1⟩, ⟨7, 7⟩, ⟨0, 1⟩, 0, 50⟩) := by decide

/-- C6 (amended): with king moves enabled, a proposed white king move whose
target is at queen-distance EXACTLY 1 from the black king is always rejected;
distance 0 (the black king's own square) is not caught by this check. -/
theorem c6_adjacent_target_rejected (s : Chess) (t : ChessBoardPosition)
    (d : Int × Int)
    (hd : s.black_king_position.queen_distance t = Except.ok (1, d)) :
    ∃ e, (s.try_apply_move true ChessPiece.King t).1 = Except.error e := by
  rcases hx : s.try_apply_move true ChessPiece.King t with ⟨r, s2⟩
  cases r with
  | error e => exact ⟨e, rfl⟩
  | ok u =>
    cases u
    obtain ⟨_, _, hno⟩ := try_apply_move_king_ok hx
    exact absurd hd (hno d)

/-- C6 (witness): moving the white king next to the black king (Kb1 with the
black king on c1) is rejected. -/
theorem c6_adjacent_target_rejected_witness :
    ∃ e, (Chess.try_apply_move ⟨⟨0, 0⟩, ⟨7, 7⟩, ⟨0, 2⟩, 0, 50⟩ true
      ChessPiece.King ⟨0, 1⟩).1 = Except.error e :=
  c6_adjacent_target_rejected ⟨⟨0, 0⟩, ⟨7, 7⟩, ⟨0, 2⟩, 0, 50⟩ ⟨0, 1⟩ (0, -1)
    (by decide)

/-- C7 (counterexample): with king moves enabled, a game state created from
three distinct on-board squares can lose the distinctness invariant after one
accepted move: with adjacent kings (a1 and b1), Kb1 is accepted and the white
king lands on the black king's square. -/
theorem c7_king_capture_counterexample :
    Chess.Valid ⟨⟨0, 0⟩, ⟨7, 7⟩, ⟨0, 1⟩, 0, 50⟩ ∧
      Chess.try_apply_move ⟨⟨0, 0⟩, ⟨7, 7⟩, ⟨0, 1⟩, 0, 50⟩ true ChessPiece.King ⟨0, 1⟩
        = (Except.ok (), ⟨⟨0, 1⟩, ⟨7, 7⟩, ⟨0, 1⟩, 0, 50⟩) ∧
      (⟨⟨0, 1⟩, ⟨7, 7⟩, ⟨0, 1⟩, 0, 50⟩ : Chess).white_king_position
        = (⟨⟨0, 1⟩, ⟨7, 7⟩, ⟨0, 1⟩, 0, 50⟩ : Chess).black_king_position := by decide

/-- C7 (amended): with king moves disabled (the configuration the judge
builds), every accepted white move from a valid state yields a valid state
(squares pairwise distinct and on the board), and so does every full
continuing loop iteration including the black response. -/
theorem c7_invariant_with_king_moves_disabled (s : Chess) (hv : s.Valid) :
    (∀ piece target s1, target.row ≤ 7 → target.column ≤ 7 →
        s.try_apply_move false piece target = (Except.ok (), s1) → s1.Valid) ∧
      (∀ line s', s.playStep false line = StepResult.next s' → s'.Valid) := by
  constructor
  · intro piece target s1 htr htc happ
    cases piece with
    | King =>
      rw [try_apply_move_king_disabled] at happ
      simp at happ
    | Queen =>
      obtain ⟨rfl, h1, h2⟩ := try_apply_move_queen_ok happ
      obtain ⟨hwr, hwc, hqr, hqc, hbr, hbc, hne1, hne2, hne3⟩ := hv
      exact ⟨hwr, hwc, htr, htc, hbr, hbc, Ne.symm h1, hne2, h2⟩
  · intro line s' h
    exact playStep_next_valid hv h

/-- C7 (witness): the invariant theorem applied to one full iteration of the
a1/e1/e8 game on input "Qe5". -/
theorem c7_invariant_with_king_moves_disabled_witness :
    Chess.Valid ⟨⟨0, 0⟩, ⟨4, 4⟩, ⟨7, 5⟩, 1, 50⟩ :=
  (c7_invariant_with_king_moves_disabled ⟨⟨0, 0⟩, ⟨0, 4⟩, ⟨7, 4⟩, 0, 50⟩
    (by decide)).2 [81, 101, 53] ⟨⟨0, 0⟩, ⟨4, 4⟩, ⟨7, 5⟩, 1, 50⟩ (by decide)

/-- C8: a proposed queen target with the white king on the same ray from the
queen at a distance not exceeding the target's is always rejected, whatever
the build flag and the rest of the position. -/
theorem c8_queen_jump_over_white_king_rejected (ke : Bool) (s : Chess)
    (t : ChessBoardPosition) (dn dk : Nat) (dir : Int × Int)
    (hq : s.white_queen_position.queen_distance t = Except.ok (dn, dir))
    (hwk : s.white_queen_position.queen_distance s.white_king_position
      = Except.ok (dk, dir))
    (hle : dk ≤ dn) :
    ∃ e, (s.try_apply_move ke ChessPiece.Queen t).1 = Except.error e := by
  rcases hx : s.try_apply_move ke ChessPiece.Queen t with ⟨r, s2⟩
  cases r with
  | error e => exact ⟨e, rfl⟩
  | ok u =>
    cases u
    exact absurd hx (try_apply_move_queen_wk_block hq hwk hle s2)

/-- C8 (witness): queen a1 to f1 with the white king on c1 is rejected. -/
theorem c8_queen_jump_over_white_king_rejected_witness :
    ∃ e, (Chess.try_apply_move ⟨⟨0, 2⟩, ⟨0, 0⟩, ⟨7, 7⟩, 0, 50⟩ false
      ChessPiece.Queen ⟨0, 5⟩).1 = Except.error e :=
  c8_queen_jump_over_white_king_rejected false ⟨⟨0, 2⟩, ⟨0, 0⟩, ⟨7, 7⟩, 0, 50⟩
    ⟨0, 5⟩ 5 2 (0, 1) (by decide) (by decide) (by decide)

/-- C9: once the accepted-move counter has reached the limit, the game ends
with TooManyMoves consuming zero input lines; and in general the game never
consumes more lines than the limit leaves room for. -/
theorem c9_move_limit_ends_game_without_reading (ke : Bool) (s : Chess)
    (lines : List (List Nat)) :
    (s.moves_limit ≤ s.moves →
        s.playGame ke lines = (GameOutcome.normal GameOver.TooManyMoves, 0)) ∧
      (s.playGame ke lines).2 ≤ s.moves_limit - s.moves := by
  induction lines generalizing s with
  | nil =>
    refine ⟨fun hl => ?_, ?_⟩
    · unfold Chess.playGame
      rw [if_pos hl]
    · unfold Chess.playGame
      split_ifs <;> simp
  | cons l rest ih =>
    refine ⟨fun hl => ?_, ?_⟩
    · unfold Chess.playGame
      rw [if_pos hl]
    · unfold Chess.playGame
      split_ifs with hl
      · simp
      · cases hb : s.playStepBody ke l with
        | over g =>
          simp only [hb]
          omega
        | panicked =>
          simp only [hb]
          omega
        | next s3 =>
          simp only [hb]
          show (s3.playGame ke rest).2 + 1 ≤ s.moves_limit - s.moves
          obtain ⟨hm, hml⟩ := playStepBody_next_counters hb
          have hrest := (ih s3).2
          omega

/-- C9 (witness): at the limit, the game is TooManyMoves and consumes no
input. -/
theorem c9_move_limit_ends_game_without_reading_witness :
    Chess.playGame ⟨⟨0, 0⟩, ⟨0, 4⟩, ⟨7, 4⟩, 2, 2⟩ false [[81, 101, 53]]
      = (GameOutcome.normal GameOver.TooManyMoves, 0) :=
  (c9_move_limit_ends_game_without_reading false ⟨⟨0, 0⟩, ⟨0, 4⟩, ⟨7, 4⟩, 2, 2⟩
    [[81, 101, 53]]).1 (le_refl 2)

/-- C10: whenever move application reports a rejection, the state — all three
squares plus both counters — is exactly the input state: rejection is
atomic. -/
theorem c10_rejection_leaves_state_unchanged (ke : Bool) (s : Chess)
    (p : ChessPiece) (t : ChessBoardPosition) (e : String)
    (h : (s.try_apply_move ke p t).1 = Except.error e) :
    (s.try_apply_move ke p t).2 = s := by
  cases try_apply_move_cases s ke p t with
  | inl h' => exact h'
  | inr h' =>
    rw [h] at h'
    exact Except.noConfusion h'

/-- C10 (witness): a rejected king move (king moves disabled) leaves the state
unchanged. -/
theorem c10_rejection_leaves_state_unchanged_witness :
    (Chess.try_apply_move ⟨⟨0, 0⟩, ⟨0, 4⟩, ⟨7, 4⟩, 0, 50⟩ false
        ChessPiece.King ⟨1, 1⟩).2
      = ⟨⟨0, 0⟩, ⟨0, 4⟩, ⟨7, 4⟩, 0, 50⟩ :=
  c10_rejection_leaves_state_unchanged false ⟨⟨0, 0⟩, ⟨0, 4⟩, ⟨7, 4⟩, 0, 50⟩
    ChessPiece.King ⟨1, 1⟩ "king moves are not allowed" (by decide)

end ChessInteractor
